import Mathlib

/-!
Shallow embedding of `src/theme-ai.mjs` (the "theme-ai" CLI tool) and
verification of the specification's claims about it.

Modelling conventions:
* JSON values are modelled by the inductive `ThemeAI.Json`; JavaScript
  objects are association lists of fields in insertion order.
* `JSON.parse` is an external platform primitive; it is a parameter
  `parse : String → Option Json` of every definition that reads JSON text
  (`none` models a thrown `SyntaxError`).
* The filesystem is a tree of `FSEntry` values; the project root is the
  list of top-level entries.
* `process.exit(1)` and uncaught exceptions are modelled by the `Except`
  monad over the `Abort` type.
* The external `npm outdated --json` subprocess is an `ExecOutcome`
  parameter; the remote registry metadata lookups and the OpenAI call are
  oracle parameters (`meta`, `apiResp`).
* `parseFloat` is modelled exactly over `ℚ` (`parseFloatQ`); this is the
  exact-rational idealization of the binary64 value, faithful whenever
  distinct parsed values are distinguishable in binary64, as they are for
  realistic version strings.
-/

namespace ThemeAI

/-- Model of a JSON value (JavaScript data produced by `JSON.parse`).
Objects are association lists of fields in insertion order. -/
inductive Json where
  | null : Json
  | bool (b : Bool) : Json
  | num (q : ℚ) : Json
  | str (s : String) : Json
  | arr (elems : List Json) : Json
  | obj (fields : List (String × Json)) : Json

/-- JavaScript truthiness of a JSON value (`!x`, `x ? _ : _`, `x || _`). -/
def Json.truthy : Json → Bool
  | .null => false
  | .bool b => b
  | .num q => decide (q ≠ 0)
  | .str s => !s.isEmpty
  | .arr _ => true
  | .obj _ => true

/-- Truthiness of a possibly-absent value (`undefined` is falsy). -/
def truthyOpt : Option Json → Bool
  | some j => j.truthy
  | none => false

/-- First-match association-list lookup (JavaScript property read on an
object whose fields are stored in insertion order). -/
def jlookup : List (String × Json) → String → Option Json
  | [], _ => none
  | (k, v) :: t, key => if k = key then some v else jlookup t key

/-- Property read `j.k` / `j?.k`: defined on objects, `undefined` (`none`)
on every other value (no primitive in this program has the properties read
through this function). -/
def Json.member : Json → String → Option Json
  | .obj fs, k => jlookup fs k
  | _, _ => none

/-- JavaScript property assignment on an object's field list: replaces the
value at an existing key in place (keeping its position), else appends the
key at the end. -/
def objSet : List (String × Json) → String → Json → List (String × Json)
  | [], k, v => [(k, v)]
  | (k', v') :: t, k, v =>
    if k' = k then (k', v) :: t else (k', v') :: objSet t k v

/-- Property assignment `j[k] = v`. On a non-object it is modelled as a
no-op; in the source this situation is unreached under the well-formedness
hypotheses used below (a strict-mode assignment to a primitive would
throw). -/
def Json.setMember : Json → String → Json → Json
  | .obj fs, k, v => .obj (objSet fs k v)
  | j, _, _ => j

/-- JavaScript object spread `{...j}` of an arbitrary value: objects give
their fields, arrays index-keyed elements, strings index-keyed characters,
all other primitives spread to nothing. -/
def Json.spreadFields : Json → List (String × Json)
  | .obj fs => fs
  | .arr xs => xs.enum.map (fun p => (toString p.1, p.2))
  | .str s => s.data.enum.map (fun p => (toString p.1, Json.str (String.singleton p.2)))
  | _ => []

/-! ### String helpers (JavaScript string primitives) -/

/-- `String.prototype.endsWith` (used for `.js` / extension checks). -/
def strEndsWith (s suffix : String) : Bool :=
  suffix.data.isSuffixOf s.data

/-- Naive substring search on character lists. -/
def listHasSub (k : List Char) : List Char → Bool
  | [] => k.isEmpty
  | c :: t => k.isPrefixOf (c :: t) || listHasSub k t

/-- `String.prototype.includes` — case-sensitive substring containment. -/
def strIncludes (s k : String) : Bool :=
  listHasSub k.data s.data

/-! ### Filesystem model -/

/-- A filesystem entry: a file with contents, or a directory with its
children. The project root (`process.cwd()`) is a `List FSEntry`. -/
inductive FSEntry where
  | file (name : String) (content : String) : FSEntry
  | dir (name : String) (children : List FSEntry) : FSEntry

/-- Name of an entry. -/
def FSEntry.name : FSEntry → String
  | .file n _ => n
  | .dir n _ => n

/-- Look up a directory entry by name (directory listings have unique
names; first match). -/
def findEntry : List FSEntry → String → Option FSEntry
  | [], _ => none
  | e :: t, n => if e.name = n then some e else findEntry t n

/-- `fs.existsSync` on a relative path given by its components (a marker
path such as `storybook/main.js` resolves through directories; the final
component may be a file or a directory). -/
def existsPath : List FSEntry → List String → Bool
  | _, [] => false
  | es, [c] => (findEntry es c).isSome
  | es, c :: rest =>
    match findEntry es c with
    | some (.dir _ children) => existsPath children rest
    | _ => false

/-! ### Process model -/

/-- How a run of a function ends abnormally: `process.exit(code)` or an
uncaught thrown exception (which also terminates the Node process). -/
inductive Abort where
  | exitCode (code : Nat) : Abort
  | thrown : Abort
deriving DecidableEq

/-- Computations that may terminate the process. -/
abbrev Proc (α : Type) := Except Abort α

/-! ### `readJson` and `readPackageJson` -/

/-- `readJson(filePath)`: read the named file at the project root and
`JSON.parse` it; any failure (missing file, path is a directory,
unparsable text) is caught and returns `null` (modelled `none`). -/
def readJson (parse : String → Option Json) (root : List FSEntry)
    (fname : String) : Option Json :=
  match findEntry root fname with
  | some (.file _ content) => parse content
  | _ => none

/-- `readPackageJson()`: `readJson` of `package.json` in the working
directory; a falsy result (parse failure — or a falsy parsed value)
prints an error and calls `process.exit(1)`. -/
def readPackageJson (parse : String → Option Json) (root : List FSEntry) :
    Proc Json :=
  match readJson parse root "package.json" with
  | some pkg => if pkg.truthy then .ok pkg else .error (.exitCode 1)
  | none => .error (.exitCode 1)

/-! ### `getOutdatedPackages` -/

/-- Outcome of `execSync('npm outdated --json')`: normal return with its
standard output, or a thrown error carrying the captured standard output
(`""` models an absent/empty `err.stdout`). -/
inductive ExecOutcome where
  | success (stdout : String) : ExecOutcome
  | failure (stdout : String) : ExecOutcome
deriving DecidableEq

/-- `getOutdatedPackages()`. The single `try`/`catch` covers both the
subprocess call and the first `JSON.parse`:
* normal exit: parse stdout; a parse failure is caught by the same
  `catch`, and the caught `SyntaxError` has no (falsy) `stdout` property,
  so `{}` is returned;
* non-zero exit with truthy captured stdout: `JSON.parse(err.stdout)` —
  and a failure of *this* parse is uncaught and propagates;
* non-zero exit without captured stdout: `{}`. -/
def getOutdatedPackages (parse : String → Option Json) :
    ExecOutcome → Proc Json
  | .success out =>
    match parse out with
    | some j => .ok j
    | none => .ok (Json.obj [])
  | .failure out =>
    if out.isEmpty then .ok (Json.obj [])
    else
      match parse out with
      | some j => .ok j
      | none => .error .thrown

/-! ### The outdated mapping and `getRecommendedNodeVersionFromPackages` -/

/-- One value of the outdated mapping: `{ current, latest }`. -/
structure OutdatedEntry where
  current : String
  latest : String
deriving DecidableEq

/-- Read one value of the outdated mapping. The consumers destructure
`{ current, latest }` and use both as version strings; the model requires
them to be present strings (the well-formed shape `npm outdated --json`
emits — malformed entries would make the JavaScript propagate `undefined`
values, behavior nothing downstream relies on). -/
def readOutdatedEntry (v : Json) : Option OutdatedEntry :=
  match v.member "current", v.member "latest" with
  | some (.str c), some (.str l) => some ⟨c, l⟩
  | _, _ => none

/-- `Object.entries` of the outdated mapping, as name/entry pairs.
`none` when the parsed subprocess output is not an object of well-formed
entries. -/
def readOutdated : Json → Option (List (String × OutdatedEntry))
  | .obj fields =>
    fields.mapM (fun p => (readOutdatedEntry p.2).map (fun e => (p.1, e)))
  | _ => none

/-- The regex test `v.match(/^>=\d/)`: the string starts with `>=`
followed by a digit. -/
def matchGE (v : String) : Bool :=
  match v.data with
  | '>' :: '=' :: c :: _ => c.isDigit
  | _ => false

/-- `v.replace(/[^\d.]/g, '')`: keep only digits and dots. -/
def stripToDigitsDots (v : String) : List Char :=
  v.data.filter (fun c => c.isDigit || c = '.')

/-- Numeric value of a digit list (most significant first). -/
def digitsToNat (ds : List Char) : Nat :=
  ds.foldl (fun n c => 10 * n + (c.toNat - 48)) 0

/-- `parseFloat` on a digits-and-dots list — longest prefix of the form
`digits [ '.' digits ]` — as an exact fraction `numerator / 10 ^ scale`
in lowest-level natural-number form. In this program the input always
starts with a digit (it is the strip of a string matching `/^>=\d/`), so
the NaN case does not arise; on an empty integer part the model gives
`0`. -/
def parseFloatPair (cs : List Char) : ℕ × ℕ :=
  let ip := cs.takeWhile Char.isDigit
  let rest := cs.dropWhile Char.isDigit
  let fp :=
    match rest with
    | '.' :: r => r.takeWhile Char.isDigit
    | _ => []
  (digitsToNat ip * 10 ^ fp.length + digitsToNat fp, fp.length)

/-- The numeric value of `parseFloat` on the stripped input, as an exact
rational (the exact-rational idealization of the binary64 value). -/
def floatKey (v : String) : ℚ :=
  ((parseFloatPair (stripToDigitsDots v)).1 : ℚ) /
    (10 : ℚ) ^ (parseFloatPair (stripToDigitsDots v)).2

/-- Executable comparison `floatKey a ≤ floatKey b`, by cross
multiplication of the exact fractions (`keyLEb_iff` proves the
agreement). -/
def keyLEb (a b : String) : Bool :=
  let pa := parseFloatPair (stripToDigitsDots a)
  let pb := parseFloatPair (stripToDigitsDots b)
  decide (pa.1 * 10 ^ pb.2 ≤ pb.1 * 10 ^ pa.2)

/-- Stable insertion into a descending-by-key list: the new element goes
after every element with a key at least as large (the element order
produced by the stable `Array.prototype.sort` with comparator
`(a, b) => bNum - aNum`). -/
def insertDesc (a : String) : List String → List String
  | [] => [a]
  | b :: t => if keyLEb b a then a :: b :: t else b :: insertDesc a t

/-- Stable sort, descending by the parsed numeric key. -/
def sortDesc : List String → List String
  | [] => []
  | a :: t => insertDesc a (sortDesc t)

/-- The fixed fallback constraint (`'>=18.0.0'`, the default LTS). -/
def defaultNode : String := ">=18.0.0"

/-- The `versions` array collected by the metadata loop: for each outdated
package, `meta dep latest` is `engines.node` of the fetched upstream
metadata when the fetch succeeded and the field is present (a failed fetch
only logs a warning, so failure and an absent field coincide here). -/
def collectEngineVersions (meta : String → String → Option String)
    (od : List (String × OutdatedEntry)) : List String :=
  od.filterMap (fun p => meta p.1 p.2.latest)

/-- `getRecommendedNodeVersionFromPackages(outdated)`. `sorted[0]` is a
string matching `/^>=\d/` whenever it exists, hence nonempty and truthy,
so `sorted[0] || '>=18.0.0'` is modelled by the head with default. -/
def getRecommendedNodeVersionFromPackages
    (meta : String → String → Option String)
    (od : List (String × OutdatedEntry)) : String :=
  let versions := collectEngineVersions meta od
  if versions.isEmpty then defaultNode
  else
    match sortDesc (versions.filter matchGE) with
    | [] => defaultNode
    | v :: _ => v

/-! ### `scanForFiles` and `detectStacksFromFiles` -/

/-- The directory names skipped by the recursive scan. -/
def ignoredDirs : List String := ["node_modules", ".git", "dist", "build", "vendor"]

mutual

/-- One step of `walk`: a non-ignored directory is recursed into; any
other entry (a file, or an ignored directory) is collected when its name
ends in the extension. -/
def scanEntry (ext : String) (dirPath : String) : FSEntry → List String
  | .file n _ => if strEndsWith n ext then [dirPath ++ "/" ++ n] else []
  | .dir n children =>
    if ignoredDirs.contains n then
      if strEndsWith n ext then [dirPath ++ "/" ++ n] else []
    else scanEntries ext (dirPath ++ "/" ++ n) children

/-- `walk` over a directory listing, in order. -/
def scanEntries (ext : String) (dirPath : String) : List FSEntry → List String
  | [] => []
  | e :: es => scanEntry ext dirPath e ++ scanEntries ext dirPath es

end

/-- `scanForFiles(baseDir, ext)` from the project root. -/
def scanForFiles (root : List FSEntry) (ext : String) : List String :=
  scanEntries ext "." root

/-- The fixed marker table, each marker file name given by its path
components (`'storybook/main.js'` resolves to `storybook` / `main.js`). -/
def stackMatchers : List (List String × String) :=
  [ (["webpack.config.js"], "Webpack"),
    (["vite.config.js"], "Vite"),
    (["gulpfile.js"], "Gulp"),
    (["Gruntfile.js"], "Grunt"),
    (["postcss.config.js"], "PostCSS"),
    (["tailwind.config.js"], "Tailwind CSS"),
    ([".babelrc"], "Babel"),
    (["babel.config.js"], "Babel"),
    (["tsconfig.json"], "TypeScript"),
    ([".stylelintrc"], "Stylelint"),
    ([".eslintrc"], "ESLint"),
    (["storybook", "main.js"], "Storybook") ]

/-- `Set.prototype.add` on the insertion-ordered label list. -/
def addLabel (s : List String) (l : String) : List String :=
  if l ∈ s then s else s ++ [l]

/-- The marker-file pass of the detector. -/
def markerPhase (root : List FSEntry) : List String :=
  stackMatchers.foldl
    (fun s m => if existsPath root m.1 then addLabel s m.2 else s) []

/-- The fixed keyword table of the source scan. -/
def lookForKeywords : List (String × String) :=
  [ ("react", "React"),
    ("vue", "Vue"),
    ("next", "Next.js"),
    ("nuxt", "Nuxt.js"),
    ("lit", "Lit") ]

/-- The conventional source directories scanned for keywords. -/
def sourceDirs : List String := ["src", "components", "js", "scripts"]

/-- The keyword loop over one source file's contents. -/
def scanFileKeywords (content : String) (s : List String) : List String :=
  lookForKeywords.foldl
    (fun s kw => if strIncludes content kw.1 then addLabel s kw.2 else s) s

/-- The file loop over one source directory's top-level listing: only
plain files whose name ends in `.js` are read. -/
def scanDirFilesKeywords (entries : List FSEntry) (s : List String) : List String :=
  entries.foldl
    (fun s e =>
      match e with
      | .file n content => if strEndsWith n ".js" then scanFileKeywords content s else s
      | .dir _ _ => s) s

/-- The directory loop of the keyword scan. A missing directory is
skipped (`existsSync` guard); a plain file bearing a source-directory
name makes `readdirSync` throw. -/
def keywordScanDirs (root : List FSEntry) :
    List String → List String → Proc (List String)
  | [], s => .ok s
  | d :: ds, s =>
    match findEntry root d with
    | none => keywordScanDirs root ds s
    | some (.file _ _) => .error .thrown
    | some (.dir _ children) => keywordScanDirs root ds (scanDirFilesKeywords children s)

/-- `detectStacksFromFiles()`: marker files, the Bootstrap dependency
check, the recursive `.scss` scan, then the keyword scan; returns the
label list in insertion order (`[...stack]`). -/
def detectStacksFromFiles (parse : String → Option Json)
    (root : List FSEntry) : Proc (List String) := do
  let s := markerPhase root
  let pkg ← readPackageJson parse root
  let s :=
    if truthyOpt ((pkg.member "dependencies").bind (fun d => d.member "bootstrap"))
        || truthyOpt ((pkg.member "devDependencies").bind (fun d => d.member "bootstrap")) then
      addLabel s "Bootstrap"
    else s
  let s :=
    if (scanForFiles root ".scss").length > 0 then addLabel s "SCSS (Sass)" else s
  keywordScanDirs root sourceDirs s

/-! ### `createUpdatedPackageJson` -/

/-- Nested property read `u[field]?.[dep]`. -/
def getDep (u : Json) (field dep : String) : Option Json :=
  (u.member field).bind (fun d => d.member dep)

/-- Nested property write `u[field][dep] = v` (performed by the source
only under a truthiness guard that ensures `u[field]` is an object with
the key, so the fall-through cases are unreached). -/
def setDep (u : Json) (field dep : String) (v : Json) : Json :=
  match u.member field with
  | some d => u.setMember field (d.setMember dep v)
  | none => u

/-- The body of the update loop: bump `dep` to `latest` in `dependencies`
when truthily present there, else in `devDependencies` when truthily
present there, else leave the copy unchanged. -/
def bumpStep (u : Json) (p : String × OutdatedEntry) : Json :=
  if truthyOpt (getDep u "dependencies" p.1) then
    setDep u "dependencies" p.1 (.str p.2.latest)
  else if truthyOpt (getDep u "devDependencies" p.1) then
    setDep u "devDependencies" p.1 (.str p.2.latest)
  else u

/-- `updated.engines = { ...(updated.engines || {}), node: recommendedNode }`. -/
def setEngines (u : Json) (recommendedNode : String) : Json :=
  let base : List (String × Json) :=
    match u.member "engines" with
    | some e => if e.truthy then e.spreadFields else []
    | none => []
  u.setMember "engines" (.obj (objSet base "node" (.str recommendedNode)))

/-- `createUpdatedPackageJson(pkg, outdated, recommendedNode)`: deep-copy
the manifest (`JSON.parse(JSON.stringify(pkg))` is the identity on the
JSON value model), bump each outdated dependency, set `engines.node`, and
write the result to `package-updated.json` — returns the updated value
and the performed file writes (path, data). -/
def createUpdatedPackageJson (pkg : Json) (od : List (String × OutdatedEntry))
    (recommendedNode : String) : Json × List (String × Json) :=
  let updated := setEngines (od.foldl bumpStep pkg) recommendedNode
  (updated, [("package-updated.json", updated)])

/-! ### `askAI` and `runAnalysis` -/

/-- The fixed placeholder returned when no API key is configured. -/
def aiPlaceholder : String := "⚠️ Skipping AI suggestions (no API key found)."

/-- Result of `askAI`: the returned text, and whether the remote
chat-completion API was invoked. -/
structure AIOutcome where
  text : String
  apiCalled : Bool
deriving DecidableEq

/-- Whether the module-level `openai` client is constructed (it is `null`
when no key is present). -/
def openaiClientConstructed (hasKey : Bool) : Bool := hasKey

/-- `askAI(prompt)`. The remote response is the oracle `apiResp` (`.ok`
the first choice's message content, `.error` a thrown failure's message);
the prompt itself does not influence the model since the response is an
oracle. Without a key the fixed placeholder is returned and no call is
made; a failed call is caught and surfaced as inline text. -/
def askAI (hasKey : Bool) (apiResp : Except String String) : AIOutcome :=
  if hasKey then
    match apiResp with
    | .ok content => ⟨content.trim, true⟩
    | .error msg => ⟨"⚠️ Failed to fetch AI suggestions: " ++ msg, true⟩
  else ⟨aiPlaceholder, false⟩

/-- Observable outcome of `runAnalysis()`: the console lines (without
color codes), the file writes (path, data), and the computed
`recommendedNode` value. -/
structure RunOutput where
  logs : List String
  writes : List (String × Json)
  recommendedNode : String

/-- `runAnalysis()`: the whole pipeline. `Object.keys(outdated).length`
is the length of the entries list; the AI prompt string is consumed only
by the remote call, so it is not materialized here. -/
def runAnalysis (parse : String → Option Json) (root : List FSEntry)
    (exec : ExecOutcome) (meta : String → String → Option String)
    (hasKey : Bool) (apiResp : Except String String) : Proc RunOutput := do
  let pkg ← readPackageJson parse root
  let odJson ← getOutdatedPackages parse exec
  let stack ← detectStacksFromFiles parse root
  let od ←
    match readOutdated odJson with
    | some od => Except.ok od
    | none => Except.error Abort.thrown
  let recommendedNode := getRecommendedNodeVersionFromPackages meta od
  let logsHead :=
    ["🔍 Analyzing theme...", "🧱 Detected Stack:"] ++
      (if stack.isEmpty then ["None detected."] else stack.map (fun i => "- " ++ i)) ++
      ["📦 Recommended Node version based on packages: " ++ recommendedNode]
  if od.isEmpty then
    let logs := logsHead ++
      ["✅ All packages are up to date.",
        "🤖 AI Suggestions:", (askAI hasKey apiResp).text]
    return ⟨logs, [], recommendedNode⟩
  else
    let (_, writes) := createUpdatedPackageJson pkg od recommendedNode
    let logs := logsHead ++
      ("⬆️ Outdated packages detected:" ::
        od.map (fun p => "- " ++ p.1 ++ ": " ++ p.2.current ++ " → " ++ p.2.latest)) ++
      ["📦 Created package-updated.json with latest versions and engines.node = " ++
          recommendedNode,
        "🤖 AI Suggestions:", (askAI hasKey apiResp).text]
    return ⟨logs, writes, recommendedNode⟩

/-! ### Well-formedness of a manifest

A realistic manifest is a JSON object whose `dependencies` and
`devDependencies` fields, when present, are objects mapping names to
non-empty version-range strings. The update loop's truthiness tests
coincide with key presence exactly on such manifests. -/

/-- A non-empty JSON string (a value a dependency mapping may hold). -/
def isNonemptyStr : Json → Bool
  | .str s => !s.isEmpty
  | _ => false

/-- The named field, when present, is an object all of whose values are
non-empty strings. -/
def DepsWf (pkg : Json) (field : String) : Prop :=
  match pkg.member field with
  | none => True
  | some (.obj fs) => ∀ p ∈ fs, isNonemptyStr p.2 = true
  | some _ => False

/-! ### Concrete data used by witnesses and counterexamples -/

/-- The JSON text `{}`. -/
def emptyObjText : String := "\x7b\x7d"

/-- A manifest declaring a runtime-version constraint. -/
def pkgC1 : Json :=
  Json.obj [("name", Json.str "theme"),
    ("engines", Json.obj [("node", Json.str ">=20.0.0")])]

/-- The JSON text of `pkgC1`. -/
def pkgC1text : String :=
  "\x7b\"name\":\"theme\",\"engines\":\x7b\"node\":\">=20.0.0\"\x7d\x7d"

/-- A manifest with a dependency name (`react`) present in both mappings. -/
def pkgBasic : Json :=
  Json.obj [("name", Json.str "theme"),
    ("dependencies", Json.obj [("react", Json.str "^17.0.0"), ("lodash", Json.str "^4.17.0")]),
    ("devDependencies", Json.obj [("react", Json.str "^16.0.0"), ("eslint", Json.str "^8.0.0")])]

/-- The JSON text of `pkgBasic`. -/
def pkgBasicText : String :=
  "\x7b\"name\":\"theme\",\"dependencies\":\x7b\"react\":\"^17.0.0\",\"lodash\":\"^4.17.0\"\x7d,\"devDependencies\":\x7b\"react\":\"^16.0.0\",\"eslint\":\"^8.0.0\"\x7d\x7d"

/-- An outdated mapping with one entry (`react`). -/
def odReact : Json :=
  Json.obj [("react", Json.obj [("current", Json.str "17.0.2"), ("latest", Json.str "18.2.0")])]

/-- The JSON text of `odReact`. -/
def odReactText : String :=
  "\x7b\"react\":\x7b\"current\":\"17.0.2\",\"latest\":\"18.2.0\"\x7d\x7d"

/-- A concrete `JSON.parse` oracle: each mapped text parses to exactly the
value real `JSON.parse` yields on it, and every other text (e.g. `oops`)
is treated as unparsable. -/
def demoParse : String → Option Json := fun s =>
  if s = "null" then some Json.null
  else if s = emptyObjText then some (Json.obj [])
  else if s = pkgC1text then some pkgC1
  else if s = pkgBasicText then some pkgBasic
  else if s = odReactText then some odReact
  else none

/-- A project root holding only a manifest that declares `engines.node`. -/
def rootC1 : List FSEntry := [FSEntry.file "package.json" pkgC1text]

/-- A project root holding only the two-mapping manifest. -/
def rootBasic : List FSEntry := [FSEntry.file "package.json" pkgBasicText]

/-- A project root whose manifest is the JSON text `null`. -/
def rootNull : List FSEntry := [FSEntry.file "package.json" "null"]

/-- A project root containing a file for each of the twelve marker names
(plus an empty-object manifest). -/
def markersFS : List FSEntry :=
  [ .file "webpack.config.js" "", .file "vite.config.js" "", .file "gulpfile.js" "",
    .file "Gruntfile.js" "", .file "postcss.config.js" "", .file "tailwind.config.js" "",
    .file ".babelrc" "", .file "babel.config.js" "", .file "tsconfig.json" "",
    .file ".stylelintrc" "", .file ".eslintrc" "",
    .dir "storybook" [.file "main.js" ""],
    .file "package.json" emptyObjText ]

/-- A project root with a `src/app.js` source file mentioning `react`
inside an import statement. -/
def rootReact : List FSEntry :=
  [ FSEntry.file "package.json" pkgBasicText,
    FSEntry.dir "src" [FSEntry.file "app.js" "import React from \"react\";"] ]

/-- A metadata oracle for the recommendation witness: two `>=` constraints
and one caret constraint. -/
def metaW : String → String → Option String := fun d _ =>
  if d = "a" then some ">=20.3.1"
  else if d = "b" then some ">=16.0.0"
  else if d = "c" then some "^14"
  else none

/-- Outdated entries for the recommendation witness. -/
def odW : List (String × OutdatedEntry) :=
  [("a", ⟨"1.0.0", "2.0.0"⟩), ("b", ⟨"1.0.0", "2.0.0"⟩), ("c", ⟨"1.0.0", "2.0.0"⟩)]

/-! ## Helper lemmas -/

theorem jlookup_mem {fs : List (String × Json)} {k : String} {v : Json}
    (h : jlookup fs k = some v) : (k, v) ∈ fs := by
  induction fs with
  | nil => simp [jlookup] at h
  | cons p t ih =>
    obtain ⟨k', v'⟩ := p
    by_cases hk : k' = k
    · subst hk
      simp [jlookup] at h
      simp [h]
    · simp [jlookup, hk] at h
      exact List.mem_cons_of_mem _ (ih h)

theorem jlookup_objSet_self (fs : List (String × Json)) (k : String) (v : Json) :
    jlookup (objSet fs k v) k = some v := by
  induction fs with
  | nil => simp [objSet, jlookup]
  | cons p t ih =>
    obtain ⟨k', v'⟩ := p
    by_cases hk : k' = k
    · simp [objSet, hk, jlookup]
    · simp [objSet, hk, jlookup, ih]

theorem jlookup_objSet_ne (fs : List (String × Json)) (k : String) (v : Json)
    {k' : String} (h : k' ≠ k) :
    jlookup (objSet fs k v) k' = jlookup fs k' := by
  have hk' : ¬(k = k') := fun he => h he.symm
  induction fs with
  | nil => simp [objSet, jlookup, hk']
  | cons p t ih =>
    obtain ⟨k₀, v₀⟩ := p
    by_cases hk : k₀ = k
    · subst hk
      simp [objSet, jlookup, hk']
    · simp [objSet, hk, jlookup, ih]

theorem mem_objSet {fs : List (String × Json)} {k : String} {v : Json}
    {p : String × Json} (h : p ∈ objSet fs k v) : p = (k, v) ∨ p ∈ fs := by
  induction fs with
  | nil => simp [objSet] at h; simp [h]
  | cons q t ih =>
    obtain ⟨k₀, v₀⟩ := q
    by_cases hk : k₀ = k
    · subst hk
      simp [objSet] at h
      rcases h with h | h
      · subst h; left; rfl
      · right; exact List.mem_cons_of_mem _ h
    · simp [objSet, hk] at h
      rcases h with h | h
      · right; simp [h]
      · rcases ih h with h' | h'
        · left; exact h'
        · right; exact List.mem_cons_of_mem _ h'

theorem member_setMember_obj (fs : List (String × Json)) (k : String) (v : Json) :
    ((Json.obj fs).setMember k v).member k = some v := by
  simp [Json.setMember, Json.member, jlookup_objSet_self]

theorem member_setMember_ne (u : Json) (k : String) (v : Json)
    {k' : String} (h : k' ≠ k) :
    (u.setMember k v).member k' = u.member k' := by
  cases u <;> simp [Json.setMember, Json.member]
  exact jlookup_objSet_ne _ _ _ h

theorem member_isObj {u : Json} {k : String} {v : Json}
    (h : u.member k = some v) : ∃ fs, u = Json.obj fs := by
  cases u <;> simp [Json.member] at h <;> exact ⟨_, rfl⟩

theorem isNonemptyStr_truthy {j : Json} (h : isNonemptyStr j = true) :
    j.truthy = true := by
  cases j <;> simp [isNonemptyStr] at h <;> simp [Json.truthy, h]

theorem mem_addLabel_self (s : List String) (l : String) : l ∈ addLabel s l := by
  unfold addLabel
  by_cases h : l ∈ s <;> simp [h]

theorem mem_addLabel_of_mem {s : List String} {x : String} (l : String)
    (h : x ∈ s) : x ∈ addLabel s l := by
  unfold addLabel
  by_cases hl : l ∈ s <;> simp [hl, h]

theorem mem_foldl_of_mem {β : Type} (g : List String → β → List String)
    (hg : ∀ s b x, x ∈ s → x ∈ g s b) :
    ∀ (l : List β) (s : List String) (x : String), x ∈ s → x ∈ l.foldl g s := by
  intro l
  induction l with
  | nil => intro s x hx; simpa using hx
  | cons b t ih =>
    intro s x hx
    exact ih (g s b) x (hg s b x hx)

theorem foldl_eq_of_id {β : Type} (g : List String → β → List String)
    (l : List β) (h : ∀ s b, b ∈ l → g s b = s) :
    ∀ s : List String, l.foldl g s = s := by
  induction l with
  | nil => intro s; rfl
  | cons b t ih =>
    intro s
    rw [List.foldl_cons, h s b (List.mem_cons_self _ _)]
    exact ih (fun s' b' hb' => h s' b' (List.mem_cons_of_mem _ hb')) s

/-! Lemmas about the descending stable sort used on constraint strings. -/

theorem keyLEb_iff (a b : String) : keyLEb a b = true ↔ floatKey a ≤ floatKey b := by
  unfold keyLEb floatKey
  rw [decide_eq_true_iff]
  rw [div_le_div_iff (by positivity) (by positivity)]
  constructor
  · intro h; exact_mod_cast h
  · intro h; exact_mod_cast h

theorem mem_insertDesc (a : String) :
    ∀ (l : List String) (x : String), x ∈ insertDesc a l ↔ x = a ∨ x ∈ l := by
  intro l
  induction l with
  | nil => intro x; simp [insertDesc]
  | cons b t ih =>
    intro x
    unfold insertDesc
    by_cases h : keyLEb b a
    · simp [h]
    · simp [h, ih]
      tauto

theorem insertDesc_ne_nil (a : String) (l : List String) :
    insertDesc a l ≠ [] := by
  cases l with
  | nil => simp [insertDesc]
  | cons b t =>
    unfold insertDesc
    by_cases h : keyLEb b a <;> simp [h]

theorem sortDesc_eq_nil_iff (l : List String) :
    sortDesc l = [] ↔ l = [] := by
  cases l with
  | nil => simp [sortDesc]
  | cons a t =>
    simp [sortDesc]
    exact insertDesc_ne_nil a (sortDesc t)

theorem mem_sortDesc :
    ∀ (l : List String) (x : String), x ∈ sortDesc l ↔ x ∈ l := by
  intro l
  induction l with
  | nil => intro x; simp [sortDesc]
  | cons a t ih =>
    intro x
    simp [sortDesc, mem_insertDesc, ih]

theorem sortDesc_head_max :
    ∀ (l : List String) (h : String) (t : List String),
      sortDesc l = h :: t → h ∈ l ∧ ∀ x ∈ l, floatKey x ≤ floatKey h := by
  intro l
  induction l with
  | nil => intro h t hht; simp [sortDesc] at hht
  | cons a l' ih =>
    intro h t hht
    rw [sortDesc] at hht
    rcases hm : sortDesc l' with _ | ⟨b, t'⟩
    · rw [hm] at hht
      unfold insertDesc at hht
      obtain ⟨he, -⟩ := List.cons.injEq .. ▸ hht
      have hl' : l' = [] := (sortDesc_eq_nil_iff l').mp hm
      subst hl' he
      refine ⟨List.mem_cons_self _ _, ?_⟩
      intro x hx
      rcases List.mem_cons.mp hx with h | h
      · subst h; exact le_refl _
      · simp at h
    · rw [hm] at hht
      obtain ⟨hb, hmax⟩ := ih b t' hm
      have hbl' : b ∈ l' := (mem_sortDesc l' b).mp (hm ▸ List.mem_cons_self _ _)
      unfold insertDesc at hht
      by_cases hba : keyLEb b a
      · rw [if_pos hba] at hht
        obtain ⟨he, -⟩ := List.cons.injEq .. ▸ hht
        subst he
        refine ⟨List.mem_cons_self _ _, ?_⟩
        intro x hx
        rcases List.mem_cons.mp hx with h | h
        · subst h; exact le_refl _
        · exact le_trans (hmax x h) ((keyLEb_iff b a).mp hba)
      · rw [if_neg hba] at hht
        obtain ⟨he, -⟩ := List.cons.injEq .. ▸ hht
        subst he
        refine ⟨List.mem_cons_of_mem _ hb, ?_⟩
        intro x hx
        have hax : floatKey a ≤ floatKey b :=
          le_of_not_le (fun hc => hba ((keyLEb_iff b a).mpr hc))
        rcases List.mem_cons.mp hx with h | h
        · subst h; exact hax
        · exact hmax x h

/-! ## Claim C9 -/

/-- C9: if the `OPENAI_API_KEY` environment variable is not set, then for
every prompt (i.e. regardless of the remote oracle) `askAI` returns the
fixed placeholder string and performs no remote API call, and the client
is never constructed. -/
theorem c9_no_key_skips_ai (apiResp : Except String String) :
    askAI false apiResp =
      ⟨"⚠️ Skipping AI suggestions (no API key found).", false⟩ ∧
    openaiClientConstructed false = false :=
  ⟨rfl, rfl⟩

/-! ## Claim C2 -/

/-- C2 counterexample: with a non-zero subprocess exit whose captured
standard output `oops` is not valid JSON (`demoParse "oops" = none`,
as real `JSON.parse` throws on it), `getOutdatedPackages` does not return
an empty mapping — the parse error escapes as an uncaught exception. -/
theorem c2_counterexample :
    demoParse "oops" = none ∧
    getOutdatedPackages demoParse (ExecOutcome.failure "oops") =
      Except.error Abort.thrown := by
  constructor
  · rfl
  · rfl

/-- C2 (amended): on a zero exit the parsed stdout (or, if that parse
fails, the empty mapping) is returned; on a non-zero exit with non-empty
captured stdout the parse of that stdout is returned and a failure of
that parse propagates as an uncaught exception; on a non-zero exit
without captured stdout the empty mapping is returned. -/
theorem c2_outdated_subprocess (parse : String → Option Json) :
    (∀ out j, parse out = some j →
      getOutdatedPackages parse (ExecOutcome.success out) = Except.ok j) ∧
    (∀ out, parse out = none →
      getOutdatedPackages parse (ExecOutcome.success out) = Except.ok (Json.obj [])) ∧
    (∀ out j, out.isEmpty = false → parse out = some j →
      getOutdatedPackages parse (ExecOutcome.failure out) = Except.ok j) ∧
    (∀ out, out.isEmpty = false → parse out = none →
      getOutdatedPackages parse (ExecOutcome.failure out) = Except.error Abort.thrown) ∧
    getOutdatedPackages parse (ExecOutcome.failure "") = Except.ok (Json.obj []) := by
  refine ⟨?_, ?_, ?_, ?_, ?_⟩
  · intro out j h; simp [getOutdatedPackages, h]
  · intro out h; simp [getOutdatedPackages, h]
  · intro out j he h; simp [getOutdatedPackages, he, h]
  · intro out he h; simp [getOutdatedPackages, he, h]
  · rfl

/-- C2 witness: the amended theorem applied at concrete inputs — a
non-zero exit whose stdout is the one-entry outdated mapping parses to
that mapping. -/
theorem c2_witness :
    getOutdatedPackages demoParse (ExecOutcome.failure odReactText) =
      Except.ok odReact :=
  (c2_outdated_subprocess demoParse).2.2.1 odReactText odReact (by rfl) (by rfl)

/-! ## Claim C4 -/

/-- C4 counterexample: a `package.json` whose contents are the JSON text
`null` is present and valid JSON (`demoParse "null" = some Json.null`,
exactly real `JSON.parse`), yet `readPackageJson` terminates the process
with exit code 1 — so "exit 1 iff missing or not valid JSON" is false. -/
theorem c4_counterexample :
    demoParse "null" = some Json.null ∧
    readPackageJson demoParse rootNull = Except.error (Abort.exitCode 1) := by
  constructor
  · rfl
  · rfl

/-- C4 (amended): `readPackageJson` terminates the process with exit
code 1 iff `package.json` is missing (or not a plain file), its contents
fail to parse, or they parse to a falsy JSON value; otherwise it returns
the parsed manifest. Exit code 1 is the only abnormal outcome. -/
theorem c4_exit_iff (parse : String → Option Json) (root : List FSEntry) :
    (readPackageJson parse root = Except.error (Abort.exitCode 1) ↔
      readJson parse root "package.json" = none ∨
        ∃ j, readJson parse root "package.json" = some j ∧ j.truthy = false) ∧
    (∀ j, readPackageJson parse root = Except.ok j ↔
      readJson parse root "package.json" = some j ∧ j.truthy = true) ∧
    (∀ a, readPackageJson parse root = Except.error a → a = Abort.exitCode 1) := by
  rcases hr : readJson parse root "package.json" with _ | j
  · refine ⟨?_, ?_, ?_⟩
    · simp [readPackageJson, hr]
    · intro j; simp [readPackageJson, hr]
    · intro a ha; simp [readPackageJson, hr] at ha; simp [ha]
  · by_cases ht : j.truthy
    · refine ⟨?_, ?_, ?_⟩
      · refine iff_of_false (by simp [readPackageJson, hr, ht]) ?_
        rintro (h | ⟨j', hj, htj⟩)
        · simp at h
        · obtain rfl : j = j' := by simpa using hj
          simp [ht] at htj
      · intro j'
        constructor
        · intro h
          have hj : j = j' := by simpa [readPackageJson, hr, ht] using h
          subst hj
          exact ⟨rfl, ht⟩
        · rintro ⟨hj, -⟩
          obtain rfl : j = j' := by simpa using hj
          simp [readPackageJson, hr, ht]
      · intro a ha; simp [readPackageJson, hr, ht] at ha
    · have ht' : j.truthy = false := by simpa using ht
      refine ⟨?_, ?_, ?_⟩
      · exact iff_of_true (by simp [readPackageJson, hr, ht'])
          (Or.inr ⟨j, rfl, ht'⟩)
      · intro j'
        refine iff_of_false (by simp [readPackageJson, hr, ht']) ?_
        rintro ⟨hj, htj⟩
        obtain rfl : j = j' := by simpa using hj
        simp [ht'] at htj
      · intro a ha; simp [readPackageJson, hr, ht'] at ha; simp [ha]

/-- C4 witness: the amended theorem applied at a concrete root — a
manifest that parses to a truthy object is returned. -/
theorem c4_witness :
    readPackageJson demoParse rootBasic = Except.ok pkgBasic :=
  ((c4_exit_iff demoParse rootBasic).2.1 pkgBasic).mpr ⟨by rfl, by rfl⟩

/-! ## Claim C6 -/

/-- C6: if the upstream-metadata queries yield no runtime-version
constraints, or none of the collected constraints matches `/^>=\d/`, the
recommendation is the fixed default `>=18.0.0`; otherwise it is one of
the matching constraints, and its digit-and-dot-stripped numeric value is
the largest among them. -/
theorem c6_recommendation (meta : String → String → Option String)
    (od : List (String × OutdatedEntry)) :
    ((collectEngineVersions meta od).filter matchGE = [] →
      getRecommendedNodeVersionFromPackages meta od = ">=18.0.0") ∧
    ((collectEngineVersions meta od).filter matchGE ≠ [] →
      getRecommendedNodeVersionFromPackages meta od ∈
        (collectEngineVersions meta od).filter matchGE ∧
      ∀ v ∈ (collectEngineVersions meta od).filter matchGE,
        floatKey v ≤ floatKey (getRecommendedNodeVersionFromPackages meta od)) := by
  by_cases hve : (collectEngineVersions meta od).isEmpty
  · have hnil : collectEngineVersions meta od = [] := by
      simpa using hve
    constructor
    · intro _
      simp [getRecommendedNodeVersionFromPackages, hve, defaultNode]
    · intro hne
      exact absurd (by simp [hnil]) hne
  · rcases hs : sortDesc ((collectEngineVersions meta od).filter matchGE)
        with _ | ⟨h, t⟩
    · have hnil : (collectEngineVersions meta od).filter matchGE = [] :=
        (sortDesc_eq_nil_iff _).mp hs
      constructor
      · intro _
        simp [getRecommendedNodeVersionFromPackages, hve, hs, defaultNode]
      · intro hne
        exact absurd hnil hne
    · obtain ⟨hmem, hmax⟩ := sortDesc_head_max _ h t hs
      have hres : getRecommendedNodeVersionFromPackages meta od = h := by
        simp [getRecommendedNodeVersionFromPackages, hve, hs]
      constructor
      · intro hnil
        rw [hnil] at hs
        simp [sortDesc] at hs
      · intro _
        rw [hres]
        exact ⟨hmem, hmax⟩

/-- C6 witness: with collected constraints `>=20.3.1`, `>=16.0.0` and a
non-matching `^14`, the theorem yields a matching constraint of maximal
stripped numeric value — and it evaluates to `>=20.3.1`. -/
theorem c6_witness :
    getRecommendedNodeVersionFromPackages metaW odW ∈
      (collectEngineVersions metaW odW).filter matchGE ∧
    floatKey ">=16.0.0" ≤ floatKey (getRecommendedNodeVersionFromPackages metaW odW) ∧
    getRecommendedNodeVersionFromPackages metaW odW = ">=20.3.1" := by
  have h := (c6_recommendation metaW odW).2 (by decide)
  exact ⟨h.1, h.2 ">=16.0.0" (by decide), by decide⟩

/-! ## Claim C5 -/

/-- C5: when the outdated mapping is empty, the run performs no file
write at all (in particular no `package-updated.json` is created) and the
console reports that all packages are up to date. -/
theorem c5_empty_no_write (parse : String → Option Json) (root : List FSEntry)
    (exec : ExecOutcome) (meta : String → String → Option String)
    (hasKey : Bool) (apiResp : Except String String)
    (pkg : Json) (st : List String)
    (hpkg : readPackageJson parse root = Except.ok pkg)
    (hout : getOutdatedPackages parse exec = Except.ok (Json.obj []))
    (hdet : detectStacksFromFiles parse root = Except.ok st) :
    ∃ out : RunOutput,
      runAnalysis parse root exec meta hasKey apiResp = Except.ok out ∧
      out.writes = [] ∧
      "✅ All packages are up to date." ∈ out.logs := by
  unfold runAnalysis
  rw [hpkg, hout, hdet]
  exact ⟨_, rfl, rfl, by simp⟩

/-- C5 witness: the theorem applied at a concrete run with an empty
outdated mapping. -/
theorem c5_witness :
    ∃ out : RunOutput,
      runAnalysis demoParse rootBasic (ExecOutcome.success emptyObjText)
          (fun _ _ => none) false (Except.error "boom") = Except.ok out ∧
      out.writes = [] ∧
      "✅ All packages are up to date." ∈ out.logs :=
  c5_empty_no_write demoParse rootBasic (ExecOutcome.success emptyObjText)
    (fun _ _ => none) false (Except.error "boom") pkgBasic []
    (by rfl) (by rfl) (by rfl)

/-! Lemmas about the keyword scan (claim C7). -/

theorem mem_scanFileKeywords (c : String) (s : List String) (x : String)
    (h : x ∈ s) : x ∈ scanFileKeywords c s := by
  unfold scanFileKeywords
  refine mem_foldl_of_mem _ ?_ _ _ _ h
  intro s' b x' hx'
  by_cases hc : strIncludes c b.1
  · simp only [hc, if_true]
    exact mem_addLabel_of_mem _ hx'
  · simpa [hc] using hx'

theorem react_mem_scanFileKeywords (c : String) (s : List String)
    (h : strIncludes c "react" = true) : "React" ∈ scanFileKeywords c s := by
  unfold scanFileKeywords lookForKeywords
  rw [List.foldl_cons]
  simp only [h, if_true]
  refine mem_foldl_of_mem _ ?_ _ _ _ (mem_addLabel_self s "React")
  intro s' b x' hx'
  by_cases hc : strIncludes c b.1
  · simp only [hc, if_true]
    exact mem_addLabel_of_mem _ hx'
  · simpa [hc] using hx'

theorem mem_scanDirFilesKeywords (entries : List FSEntry) (s : List String)
    (x : String) (h : x ∈ s) : x ∈ scanDirFilesKeywords entries s := by
  unfold scanDirFilesKeywords
  refine mem_foldl_of_mem _ ?_ _ _ _ h
  intro s' e x' hx'
  cases e with
  | file n c =>
    by_cases hjs : strEndsWith n ".js"
    · simp only [hjs, if_true]
      exact mem_scanFileKeywords c s' x' hx'
    · simpa [hjs] using hx'
  | dir n cs => simpa using hx'

theorem react_mem_scanDirFilesKeywords (entries : List FSEntry)
    (fname content : String)
    (hmem : FSEntry.file fname content ∈ entries)
    (hjs : strEndsWith fname ".js" = true)
    (hreact : strIncludes content "react" = true) :
    ∀ s : List String, "React" ∈ scanDirFilesKeywords entries s := by
  induction entries with
  | nil => simp at hmem
  | cons e t ih =>
    intro s
    rcases List.mem_cons.mp hmem with he | he
    · unfold scanDirFilesKeywords
      rw [List.foldl_cons, ← he]
      simp only [hjs, if_true]
      exact mem_scanDirFilesKeywords t _ _
        (react_mem_scanFileKeywords content s hreact)
    · unfold scanDirFilesKeywords
      rw [List.foldl_cons]
      exact ih he _

theorem keywordScanDirs_mono (root : List FSEntry) :
    ∀ (ds : List String) (s st : List String),
      keywordScanDirs root ds s = Except.ok st → ∀ x ∈ s, x ∈ st := by
  intro ds
  induction ds with
  | nil =>
    intro s st h x hx
    simp [keywordScanDirs] at h
    exact h ▸ hx
  | cons d ds ih =>
    intro s st h x hx
    unfold keywordScanDirs at h
    rcases hf : findEntry root d with _ | e
    · rw [hf] at h
      exact ih s st h x hx
    · cases e with
      | file n c => rw [hf] at h; simp at h
      | dir n children =>
        rw [hf] at h
        exact ih _ st h x (mem_scanDirFilesKeywords children s x hx)

theorem keywordScanDirs_trigger (root : List FSEntry)
    (d nm : String) (children : List FSEntry) (fname content : String)
    (hfind : findEntry root d = some (FSEntry.dir nm children))
    (hfile : FSEntry.file fname content ∈ children)
    (hjs : strEndsWith fname ".js" = true)
    (hreact : strIncludes content "react" = true) :
    ∀ (ds : List String) (s st : List String), d ∈ ds →
      keywordScanDirs root ds s = Except.ok st → "React" ∈ st := by
  intro ds
  induction ds with
  | nil => intro s st hd; simp at hd
  | cons d₀ ds ih =>
    intro s st hd h
    unfold keywordScanDirs at h
    rcases List.mem_cons.mp hd with hd₀ | hd₀
    · subst hd₀
      rw [hfind] at h
      exact keywordScanDirs_mono root ds _ st h "React"
        (react_mem_scanDirFilesKeywords children fname content hfile hjs hreact s)
    · rcases hf : findEntry root d₀ with _ | e
      · rw [hf] at h
        exact ih s st hd₀ h
      · cases e with
        | file n c => rw [hf] at h; simp at h
        | dir n cs =>
          rw [hf] at h
          exact ih _ st hd₀ h

/-! ## Claim C7 -/

/-- C7: if some conventional source directory contains, at top level, a
`.js` file whose contents contain the case-sensitive substring `react`
anywhere, then the detector's output (when it completes) includes the
label `React`. -/
theorem c7_react_detected (parse : String → Option Json) (root : List FSEntry)
    (st : List String) (d nm fname content : String) (children : List FSEntry)
    (hd : d ∈ sourceDirs)
    (hfind : findEntry root d = some (FSEntry.dir nm children))
    (hfile : FSEntry.file fname content ∈ children)
    (hjs : strEndsWith fname ".js" = true)
    (hreact : strIncludes content "react" = true)
    (hdet : detectStacksFromFiles parse root = Except.ok st) :
    "React" ∈ st := by
  unfold detectStacksFromFiles at hdet
  rcases hp : readPackageJson parse root with a | pkg
  · rw [hp] at hdet
    simp [Bind.bind, Except.bind] at hdet
  · rw [hp] at hdet
    simp only [Bind.bind, Except.bind] at hdet
    exact keywordScanDirs_trigger root d nm children fname content
      hfind hfile hjs hreact sourceDirs _ st hd hdet

/-- C7 witness: the theorem applied to a project whose `src/app.js`
mentions `react` inside an import statement. -/
theorem c7_witness :
    ∃ st : List String,
      detectStacksFromFiles demoParse rootReact = Except.ok st ∧ "React" ∈ st := by
  refine ⟨["React"], by rfl, ?_⟩
  exact c7_react_detected demoParse rootReact ["React"] "src" "src" "app.js"
    "import React from \"react\";" [FSEntry.file "app.js" "import React from \"react\";"]
    (by decide) (by rfl) (List.mem_singleton.mpr rfl) (by rfl) (by rfl) (by rfl)

/-! Lemmas for claim C8: the marker pass on a root with every marker, and
the no-op behavior of the keyword scan when nothing matches. -/

theorem markerPhase_all (root : List FSEntry)
    (hmk : ∀ m ∈ stackMatchers, existsPath root m.1 = true) :
    markerPhase root = ["Webpack", "Vite", "Gulp", "Grunt", "PostCSS",
      "Tailwind CSS", "Babel", "TypeScript", "Stylelint", "ESLint", "Storybook"] := by
  have h1 := hmk (["webpack.config.js"], "Webpack") (by decide)
  have h2 := hmk (["vite.config.js"], "Vite") (by decide)
  have h3 := hmk (["gulpfile.js"], "Gulp") (by decide)
  have h4 := hmk (["Gruntfile.js"], "Grunt") (by decide)
  have h5 := hmk (["postcss.config.js"], "PostCSS") (by decide)
  have h6 := hmk (["tailwind.config.js"], "Tailwind CSS") (by decide)
  have h7 := hmk ([".babelrc"], "Babel") (by decide)
  have h8 := hmk (["babel.config.js"], "Babel") (by decide)
  have h9 := hmk (["tsconfig.json"], "TypeScript") (by decide)
  have h10 := hmk ([".stylelintrc"], "Stylelint") (by decide)
  have h11 := hmk ([".eslintrc"], "ESLint") (by decide)
  have h12 := hmk (["storybook", "main.js"], "Storybook") (by decide)
  unfold markerPhase stackMatchers
  simp only [List.foldl_cons, List.foldl_nil,
    h1, h2, h3, h4, h5, h6, h7, h8, h9, h10, h11, h12, if_true]
  rfl

theorem scanFileKeywords_id (c : String) (s : List String)
    (h : ∀ kw ∈ lookForKeywords, strIncludes c kw.1 = false) :
    scanFileKeywords c s = s := by
  unfold scanFileKeywords
  refine foldl_eq_of_id _ _ ?_ s
  intro s' kw hkw
  simp [h kw hkw]

theorem scanDirFilesKeywords_id (entries : List FSEntry) (s : List String)
    (h : ∀ n c, FSEntry.file n c ∈ entries → strEndsWith n ".js" = true →
      ∀ kw ∈ lookForKeywords, strIncludes c kw.1 = false) :
    scanDirFilesKeywords entries s = s := by
  unfold scanDirFilesKeywords
  refine foldl_eq_of_id _ _ ?_ s
  intro s' e he
  cases e with
  | file n c =>
    by_cases hjs : strEndsWith n ".js"
    · simp only [hjs, if_true]
      exact scanFileKeywords_id c s' (h n c he hjs)
    · simp [hjs]
  | dir n cs => rfl

theorem keywordScanDirs_id (root : List FSEntry) :
    ∀ (ds : List String) (s : List String),
      (∀ d ∈ ds, findEntry root d = none ∨
        ∃ nm children, findEntry root d = some (FSEntry.dir nm children) ∧
          ∀ n c, FSEntry.file n c ∈ children → strEndsWith n ".js" = true →
            ∀ kw ∈ lookForKeywords, strIncludes c kw.1 = false) →
      keywordScanDirs root ds s = Except.ok s := by
  intro ds
  induction ds with
  | nil => intro s _; rfl
  | cons d ds ih =>
    intro s h
    unfold keywordScanDirs
    rcases h d (List.mem_cons_self _ _) with hnone | ⟨nm, children, hfind, hh⟩
    · rw [hnone]
      exact ih s (fun d' hd' => h d' (List.mem_cons_of_mem _ hd'))
    · rw [hfind]
      show keywordScanDirs root ds (scanDirFilesKeywords children s) = Except.ok s
      rw [scanDirFilesKeywords_id children s hh]
      exact ih s (fun d' hd' => h d' (List.mem_cons_of_mem _ hd'))

/-! ## Claim C8 -/

/-- C8: a project with a valid manifest free of the `bootstrap`
dependency, a file (of arbitrary content) for each of the twelve marker
names, no `.scss` files and no keyword-matching source files is detected
as exactly the distinct labels of the marker table, with the duplicate
`Babel` label appearing once. -/
theorem c8_all_markers (parse : String → Option Json) (root : List FSEntry)
    (pkg : Json)
    (hmk : ∀ m ∈ stackMatchers, existsPath root m.1 = true)
    (hpkg : readPackageJson parse root = Except.ok pkg)
    (hb1 : getDep pkg "dependencies" "bootstrap" = none)
    (hb2 : getDep pkg "devDependencies" "bootstrap" = none)
    (hscss : scanForFiles root ".scss" = [])
    (hkw : ∀ d ∈ sourceDirs, findEntry root d = none ∨
      ∃ nm children, findEntry root d = some (FSEntry.dir nm children) ∧
        ∀ n c, FSEntry.file n c ∈ children → strEndsWith n ".js" = true →
          ∀ kw ∈ lookForKeywords, strIncludes c kw.1 = false) :
    detectStacksFromFiles parse root =
      Except.ok ["Webpack", "Vite", "Gulp", "Grunt", "PostCSS", "Tailwind CSS",
        "Babel", "TypeScript", "Stylelint", "ESLint", "Storybook"] := by
  unfold getDep at hb1 hb2
  unfold detectStacksFromFiles
  rw [hpkg]
  simp only [Bind.bind, Except.bind]
  rw [markerPhase_all root hmk, hb1, hb2, hscss]
  simp only [truthyOpt, Bool.or_self, Bool.false_eq_true, if_false,
    List.length_nil, gt_iff_lt, lt_self_iff_false]
  exact keywordScanDirs_id root sourceDirs _ hkw

/-- C8 witness: the theorem applied to a concrete root holding all twelve
marker files and an empty-object manifest. -/
theorem c8_witness :
    detectStacksFromFiles demoParse markersFS =
      Except.ok ["Webpack", "Vite", "Gulp", "Grunt", "PostCSS", "Tailwind CSS",
        "Babel", "TypeScript", "Stylelint", "ESLint", "Storybook"] := by
  refine c8_all_markers demoParse markersFS (Json.obj [])
    (by decide) (by rfl) (by rfl) (by rfl) (by rfl) ?_
  intro d hd
  simp only [sourceDirs, List.mem_cons, List.not_mem_nil, or_false] at hd
  rcases hd with rfl | rfl | rfl | rfl <;> exact Or.inl rfl

/-! ## Claim C1 -/

/-- C1 (code bug evidence): a run on a manifest that declares
`engines.node = ">=20.0.0"`, with an empty outdated mapping, recommends
the fixed default `>=18.0.0` — the declared manifest constraint is never
consulted (`runAnalysis` derives the recommendation from
`getRecommendedNodeVersionFromPackages(outdated)` alone), contradicting
the claimed precedence of the manifest's declared constraint. -/
theorem c1_manifest_engines_ignored :
    getDep pkgC1 "engines" "node" = some (Json.str ">=20.0.0") ∧
    readPackageJson demoParse rootC1 = Except.ok pkgC1 ∧
    (runAnalysis demoParse rootC1 (ExecOutcome.success emptyObjText)
        (fun _ _ => none) false (Except.error "e")).map RunOutput.recommendedNode =
      Except.ok ">=18.0.0" :=
  ⟨rfl, rfl, rfl⟩

/-! Lemmas about the dependency-update fold (claims C3 and C10). -/

theorem depsWf_value {u : Json} {field dep : String} {j : Json}
    (hwf : DepsWf u field) (h : getDep u field dep = some j) :
    isNonemptyStr j = true := by
  unfold getDep at h
  rcases hm : u.member field with _ | d
  · rw [hm] at h; simp at h
  · rw [hm] at h
    simp only [Option.some_bind] at h
    unfold DepsWf at hwf
    rw [hm] at hwf
    cases d with
    | obj gs => exact hwf _ (jlookup_mem h)
    | null => exact absurd hwf (by simp [Json.member] at h)
    | bool b => exact absurd hwf (by simp [Json.member] at h)
    | num q => exact absurd hwf (by simp [Json.member] at h)
    | str s => exact absurd hwf (by simp [Json.member] at h)
    | arr xs => exact absurd hwf (by simp [Json.member] at h)

theorem depsWf_truthyOpt {u : Json} {field dep : String} (hwf : DepsWf u field) :
    truthyOpt (getDep u field dep) = (getDep u field dep).isSome := by
  rcases h : getDep u field dep with _ | j
  · rfl
  · simp only [truthyOpt, Option.isSome]
    exact isNonemptyStr_truthy (depsWf_value hwf h)

theorem depsWf_congr {u u' : Json} {field : String}
    (h : u'.member field = u.member field) (hwf : DepsWf u field) :
    DepsWf u' field := by
  unfold DepsWf at *
  rw [h]
  exact hwf

theorem member_setDep_ne (u : Json) (field dep : String) (v : Json)
    {k : String} (hk : k ≠ field) :
    (setDep u field dep v).member k = u.member k := by
  unfold setDep
  rcases hm : u.member field with _ | d
  · rfl
  · exact member_setMember_ne u field _ hk

theorem getDep_setDep_self {u : Json} {field dep : String} {d j : Json} (v : Json)
    (hm : u.member field = some d) (hd : d.member dep = some j) :
    getDep (setDep u field dep v) field dep = some v := by
  obtain ⟨fs, rfl⟩ := member_isObj hm
  obtain ⟨gs, rfl⟩ := member_isObj hd
  unfold setDep
  rw [hm]
  unfold getDep
  rw [member_setMember_obj]
  simp [Json.setMember, Json.member, jlookup_objSet_self]

theorem getDep_setDep_ne_dep (u : Json) (field dep : String) (v : Json)
    {name : String} (hname : name ≠ dep) :
    getDep (setDep u field dep v) field name = getDep u field name := by
  unfold setDep
  rcases hm : u.member field with _ | d
  · rfl
  · obtain ⟨fs, rfl⟩ := member_isObj hm
    unfold getDep
    rw [member_setMember_obj, hm]
    simp only [Option.some_bind]
    cases d with
    | obj gs => simp [Json.setMember, Json.member, jlookup_objSet_ne _ _ _ hname]
    | null => rfl
    | bool b => rfl
    | num q => rfl
    | str s => rfl
    | arr xs => rfl

theorem getDep_setDep_ne_field (u : Json) (field dep : String) (v : Json)
    {field' name : String} (hf : field' ≠ field) :
    getDep (setDep u field dep v) field' name = getDep u field' name := by
  unfold getDep
  rw [member_setDep_ne u field dep v hf]

theorem setDep_isObj {u : Json} (field dep : String) (v : Json)
    (hobj : ∃ fs, u = Json.obj fs) : ∃ gs, setDep u field dep v = Json.obj gs := by
  obtain ⟨fs, rfl⟩ := hobj
  unfold setDep
  rcases hm : (Json.obj fs).member field with _ | d
  · exact ⟨fs, rfl⟩
  · exact ⟨_, rfl⟩

theorem depsWf_setDep {u : Json} {field dep : String} {v : Json}
    (hwf : DepsWf u field) (hv : isNonemptyStr v = true) :
    DepsWf (setDep u field dep v) field := by
  unfold setDep
  rcases hm : u.member field with _ | d
  · exact hwf
  · obtain ⟨fs, rfl⟩ := member_isObj hm
    unfold DepsWf at hwf ⊢
    rw [hm] at hwf
    rw [member_setMember_obj]
    cases d with
    | obj gs =>
      simp only [Json.setMember]
      intro p hp
      rcases mem_objSet hp with hp' | hp'
      · rw [hp']; exact hv
      · exact hwf p hp'
    | null => exact hwf.elim
    | bool b => exact hwf.elim
    | num q => exact hwf.elim
    | str s => exact hwf.elim
    | arr xs => exact hwf.elim

theorem bumpStep_member_ne (u : Json) (p : String × OutdatedEntry)
    {k : String} (hk1 : k ≠ "dependencies") (hk2 : k ≠ "devDependencies") :
    (bumpStep u p).member k = u.member k := by
  unfold bumpStep
  by_cases h1 : truthyOpt (getDep u "dependencies" p.1)
  · simp only [h1, if_true]
    exact member_setDep_ne u _ _ _ hk1
  · simp only [h1, Bool.false_eq_true, if_false]
    by_cases h2 : truthyOpt (getDep u "devDependencies" p.1)
    · simp only [h2, if_true]
      exact member_setDep_ne u _ _ _ hk2
    · simp only [h2, Bool.false_eq_true, if_false]

theorem bumpStep_getDep_ne (u : Json) (p : String × OutdatedEntry)
    {name : String} (hname : name ≠ p.1) (field : String) :
    getDep (bumpStep u p) field name = getDep u field name := by
  unfold bumpStep
  by_cases h1 : truthyOpt (getDep u "dependencies" p.1)
  · simp only [h1, if_true]
    by_cases hf : field = "dependencies"
    · subst hf; exact getDep_setDep_ne_dep u _ _ _ hname
    · exact getDep_setDep_ne_field u _ _ _ hf
  · simp only [h1, Bool.false_eq_true, if_false]
    by_cases h2 : truthyOpt (getDep u "devDependencies" p.1)
    · simp only [h2, if_true]
      by_cases hf : field = "devDependencies"
      · subst hf; exact getDep_setDep_ne_dep u _ _ _ hname
      · exact getDep_setDep_ne_field u _ _ _ hf
    · simp only [h2, Bool.false_eq_true, if_false]

theorem bumpStep_getDep_self {u : Json} (p : String × OutdatedEntry)
    (hwf1 : DepsWf u "dependencies") (hwf2 : DepsWf u "devDependencies") :
    if (getDep u "dependencies" p.1).isSome then
      getDep (bumpStep u p) "dependencies" p.1 = some (Json.str p.2.latest) ∧
      getDep (bumpStep u p) "devDependencies" p.1 = getDep u "devDependencies" p.1
    else if (getDep u "devDependencies" p.1).isSome then
      getDep (bumpStep u p) "devDependencies" p.1 = some (Json.str p.2.latest) ∧
      getDep (bumpStep u p) "dependencies" p.1 = getDep u "dependencies" p.1
    else bumpStep u p = u := by
  by_cases h1 : (getDep u "dependencies" p.1).isSome
  · rw [if_pos h1]
    obtain ⟨j, hj⟩ := Option.isSome_iff_exists.mp h1
    have ht1 : truthyOpt (getDep u "dependencies" p.1) = true := by
      rw [depsWf_truthyOpt hwf1, h1]
    have hsplit : ∃ d, u.member "dependencies" = some d ∧ d.member p.1 = some j := by
      unfold getDep at hj
      rcases hm : u.member "dependencies" with _ | d
      · rw [hm] at hj; simp at hj
      · rw [hm] at hj
        simp only [Option.some_bind] at hj
        exact ⟨d, rfl, hj⟩
    obtain ⟨d, hm, hd⟩ := hsplit
    unfold bumpStep
    rw [ht1, if_pos rfl]
    constructor
    · exact getDep_setDep_self _ hm hd
    · exact getDep_setDep_ne_field u _ _ _ (by decide)
  · rw [if_neg h1]
    have hn1 : getDep u "dependencies" p.1 = none := Option.not_isSome_iff_eq_none.mp h1
    have ht1 : truthyOpt (getDep u "dependencies" p.1) = false := by
      rw [depsWf_truthyOpt hwf1, hn1]; rfl
    by_cases h2 : (getDep u "devDependencies" p.1).isSome
    · rw [if_pos h2]
      obtain ⟨j, hj⟩ := Option.isSome_iff_exists.mp h2
      have ht2 : truthyOpt (getDep u "devDependencies" p.1) = true := by
        rw [depsWf_truthyOpt hwf2, h2]
      have hsplit : ∃ d, u.member "devDependencies" = some d ∧ d.member p.1 = some j := by
        unfold getDep at hj
        rcases hm : u.member "devDependencies" with _ | d
        · rw [hm] at hj; simp at hj
        · rw [hm] at hj
          simp only [Option.some_bind] at hj
          exact ⟨d, rfl, hj⟩
      obtain ⟨d, hm, hd⟩ := hsplit
      unfold bumpStep
      rw [ht1, ht2]
      simp only [Bool.false_eq_true, if_false, if_true]
      constructor
      · exact getDep_setDep_self _ hm hd
      · exact getDep_setDep_ne_field u _ _ _ (by decide)
    · rw [if_neg h2]
      have hn2 : getDep u "devDependencies" p.1 = none := Option.not_isSome_iff_eq_none.mp h2
      have ht2 : truthyOpt (getDep u "devDependencies" p.1) = false := by
        rw [depsWf_truthyOpt hwf2, hn2]; rfl
      unfold bumpStep
      rw [ht1, ht2]
      simp

theorem bumpStep_wf {u : Json} (p : String × OutdatedEntry)
    (hwf1 : DepsWf u "dependencies") (hwf2 : DepsWf u "devDependencies")
    (hlat : p.2.latest.isEmpty = false) :
    DepsWf (bumpStep u p) "dependencies" ∧ DepsWf (bumpStep u p) "devDependencies" := by
  have hv : isNonemptyStr (Json.str p.2.latest) = true := by
    simp [isNonemptyStr, hlat]
  unfold bumpStep
  by_cases h1 : truthyOpt (getDep u "dependencies" p.1)
  · simp only [h1, if_true]
    exact ⟨depsWf_setDep hwf1 hv,
      depsWf_congr (member_setDep_ne u _ _ _ (by decide)) hwf2⟩
  · simp only [h1, Bool.false_eq_true, if_false]
    by_cases h2 : truthyOpt (getDep u "devDependencies" p.1)
    · simp only [h2, if_true]
      exact ⟨depsWf_congr (member_setDep_ne u _ _ _ (by decide)) hwf1,
        depsWf_setDep hwf2 hv⟩
    · simp only [h2, Bool.false_eq_true, if_false]
      exact ⟨hwf1, hwf2⟩

theorem bumpStep_isObj {u : Json} (p : String × OutdatedEntry)
    (hobj : ∃ fs, u = Json.obj fs) : ∃ gs, bumpStep u p = Json.obj gs := by
  unfold bumpStep
  by_cases h1 : truthyOpt (getDep u "dependencies" p.1)
  · simp only [h1, if_true]
    exact setDep_isObj _ _ _ hobj
  · simp only [h1, Bool.false_eq_true, if_false]
    by_cases h2 : truthyOpt (getDep u "devDependencies" p.1)
    · simp only [h2, if_true]
      exact setDep_isObj _ _ _ hobj
    · simp only [h2, Bool.false_eq_true, if_false]
      exact hobj

theorem bumpFold_isObj :
    ∀ (od : List (String × OutdatedEntry)) (u : Json),
      (∃ fs, u = Json.obj fs) → ∃ gs, od.foldl bumpStep u = Json.obj gs := by
  intro od
  induction od with
  | nil => intro u hobj; exact hobj
  | cons p od ih =>
    intro u hobj
    rw [List.foldl_cons]
    exact ih _ (bumpStep_isObj p hobj)

theorem bumpFold_spec :
    ∀ (od : List (String × OutdatedEntry)) (u : Json),
      DepsWf u "dependencies" → DepsWf u "devDependencies" →
      (od.map Prod.fst).Nodup →
      (∀ p ∈ od, p.2.latest.isEmpty = false) →
      (DepsWf (od.foldl bumpStep u) "dependencies" ∧
        DepsWf (od.foldl bumpStep u) "devDependencies") ∧
      (∀ k, k ≠ "dependencies" → k ≠ "devDependencies" →
        (od.foldl bumpStep u).member k = u.member k) ∧
      (∀ name, name ∉ od.map Prod.fst → ∀ field,
        getDep (od.foldl bumpStep u) field name = getDep u field name) ∧
      (∀ p ∈ od,
        if (getDep u "dependencies" p.1).isSome then
          getDep (od.foldl bumpStep u) "dependencies" p.1 = some (Json.str p.2.latest) ∧
          getDep (od.foldl bumpStep u) "devDependencies" p.1 =
            getDep u "devDependencies" p.1
        else if (getDep u "devDependencies" p.1).isSome then
          getDep (od.foldl bumpStep u) "devDependencies" p.1 = some (Json.str p.2.latest) ∧
          getDep (od.foldl bumpStep u) "dependencies" p.1 =
            getDep u "dependencies" p.1
        else
          getDep (od.foldl bumpStep u) "dependencies" p.1 =
            getDep u "dependencies" p.1 ∧
          getDep (od.foldl bumpStep u) "devDependencies" p.1 =
            getDep u "devDependencies" p.1) := by
  intro od
  induction od with
  | nil =>
    intro u hwf1 hwf2 _ _
    refine ⟨⟨hwf1, hwf2⟩, fun k _ _ => rfl, fun name _ field => rfl, ?_⟩
    intro p hp
    simp at hp
  | cons p od ih =>
    intro u hwf1 hwf2 hnodup hlat
    have hnotin : p.1 ∉ od.map Prod.fst := by
      rw [List.map_cons] at hnodup
      exact (List.nodup_cons.mp hnodup).1
    have hnodup' : (od.map Prod.fst).Nodup := by
      rw [List.map_cons] at hnodup
      exact (List.nodup_cons.mp hnodup).2
    have hlat₀ : p.2.latest.isEmpty = false := hlat p (List.mem_cons_self _ _)
    have hlat' : ∀ q ∈ od, q.2.latest.isEmpty = false :=
      fun q hq => hlat q (List.mem_cons_of_mem _ hq)
    obtain ⟨hwf1', hwf2'⟩ := bumpStep_wf p hwf1 hwf2 hlat₀
    have step := bumpStep_getDep_self p hwf1 hwf2
    obtain ⟨⟨rwf1, rwf2⟩, hframe, hnames, hself⟩ :=
      ih (bumpStep u p) hwf1' hwf2' hnodup' hlat'
    rw [List.foldl_cons]
    refine ⟨⟨rwf1, rwf2⟩, ?_, ?_, ?_⟩
    · intro k hk1 hk2
      rw [hframe k hk1 hk2]
      exact bumpStep_member_ne u p hk1 hk2
    · intro name hname field
      have hname₀ : name ≠ p.1 := by
        intro he
        exact hname (by simp [he])
      have hname' : name ∉ od.map Prod.fst := by
        intro hmem
        exact hname (by simp [hmem])
      rw [hnames name hname' field]
      exact bumpStep_getDep_ne u p hname₀ field
    · intro q hq
      rcases List.mem_cons.mp hq with hq₀ | hq₀
      · subst hq₀
        have htail : ∀ field, getDep (od.foldl bumpStep (bumpStep u q))
            field q.1 = getDep (bumpStep u q) field q.1 :=
          fun field => hnames q.1 hnotin field
        by_cases h1 : (getDep u "dependencies" q.1).isSome
        · rw [if_pos h1]
          rw [if_pos h1] at step
          exact ⟨(htail "dependencies").trans step.1,
            (htail "devDependencies").trans step.2⟩
        · rw [if_neg h1]
          rw [if_neg h1] at step
          by_cases h2 : (getDep u "devDependencies" q.1).isSome
          · rw [if_pos h2]
            rw [if_pos h2] at step
            exact ⟨(htail "devDependencies").trans step.1,
              (htail "dependencies").trans step.2⟩
          · rw [if_neg h2]
            rw [if_neg h2] at step
            refine ⟨(htail "dependencies").trans ?_, (htail "devDependencies").trans ?_⟩
            · rw [step]
            · rw [step]
      · have hq1 : q.1 ≠ p.1 := by
          intro he
          exact hnotin (he ▸ List.mem_map_of_mem Prod.fst hq₀)
        have htr : ∀ field, getDep (bumpStep u p) field q.1 = getDep u field q.1 :=
          fun field => bumpStep_getDep_ne u p hq1 field
        have hres := hself q hq₀
        rw [htr "dependencies", htr "devDependencies"] at hres
        exact hres

theorem member_setEngines_ne (u : Json) (recommendedNode : String)
    {k : String} (hk : k ≠ "engines") :
    (setEngines u recommendedNode).member k = u.member k := by
  unfold setEngines
  exact member_setMember_ne u _ _ hk

theorem getDep_setEngines_ne (u : Json) (recommendedNode : String)
    {field : String} (hf : field ≠ "engines") (name : String) :
    getDep (setEngines u recommendedNode) field name = getDep u field name := by
  unfold getDep
  rw [member_setEngines_ne u recommendedNode hf]

theorem getDep_setEngines_node (u : Json) (recommendedNode : String)
    (hobj : ∃ fs, u = Json.obj fs) :
    getDep (setEngines u recommendedNode) "engines" "node" =
      some (Json.str recommendedNode) := by
  obtain ⟨fs, rfl⟩ := hobj
  unfold setEngines getDep
  rw [member_setMember_obj]
  simp [Json.member, jlookup_objSet_self]

/-! ## Claim C10 -/

/-- C10: on a well-formed manifest, when an outdated package name is
present in both dependency mappings, `createUpdatedPackageJson` bumps
only the `dependencies` entry to the latest version; the
`devDependencies` entry keeps its original version range, and every
top-level field other than the two dependency mappings and `engines` is
copied unchanged. -/
theorem c10_runtime_deps_win (pkg : Json) (od : List (String × OutdatedEntry))
    (recommendedNode : String) (dep : String) (e : OutdatedEntry)
    (hwf1 : DepsWf pkg "dependencies") (hwf2 : DepsWf pkg "devDependencies")
    (hnodup : (od.map Prod.fst).Nodup)
    (hlat : ∀ p ∈ od, p.2.latest.isEmpty = false)
    (hmem : (dep, e) ∈ od)
    (hdep : (getDep pkg "dependencies" dep).isSome = true)
    (hdev : (getDep pkg "devDependencies" dep).isSome = true) :
    getDep (createUpdatedPackageJson pkg od recommendedNode).1 "dependencies" dep =
      some (Json.str e.latest) ∧
    getDep (createUpdatedPackageJson pkg od recommendedNode).1 "devDependencies" dep =
      getDep pkg "devDependencies" dep ∧
    (∀ k, k ≠ "dependencies" → k ≠ "devDependencies" → k ≠ "engines" →
      (createUpdatedPackageJson pkg od recommendedNode).1.member k = pkg.member k) := by
  obtain ⟨-, hframe, -, hself⟩ := bumpFold_spec od pkg hwf1 hwf2 hnodup hlat
  have hres := hself (dep, e) hmem
  rw [if_pos hdep] at hres
  refine ⟨?_, ?_, ?_⟩
  · rw [show (createUpdatedPackageJson pkg od recommendedNode).1 =
      setEngines (od.foldl bumpStep pkg) recommendedNode from rfl]
    rw [getDep_setEngines_ne _ _ (by decide)]
    exact hres.1
  · rw [show (createUpdatedPackageJson pkg od recommendedNode).1 =
      setEngines (od.foldl bumpStep pkg) recommendedNode from rfl]
    rw [getDep_setEngines_ne _ _ (by decide)]
    exact hres.2
  · intro k hk1 hk2 hk3
    rw [show (createUpdatedPackageJson pkg od recommendedNode).1 =
      setEngines (od.foldl bumpStep pkg) recommendedNode from rfl]
    rw [member_setEngines_ne _ _ hk3]
    exact hframe k hk1 hk2

/-- C10 witness: the theorem applied to the concrete manifest with
`react` in both mappings, outdated to `18.2.0`. -/
theorem c10_witness :
    getDep (createUpdatedPackageJson pkgBasic [("react", ⟨"17.0.2", "18.2.0"⟩)]
        ">=18.0.0").1 "dependencies" "react" = some (Json.str "18.2.0") ∧
    getDep (createUpdatedPackageJson pkgBasic [("react", ⟨"17.0.2", "18.2.0"⟩)]
        ">=18.0.0").1 "devDependencies" "react" = some (Json.str "^16.0.0") ∧
    (createUpdatedPackageJson pkgBasic [("react", ⟨"17.0.2", "18.2.0"⟩)]
        ">=18.0.0").1.member "name" = some (Json.str "theme") := by
  have hw1 : DepsWf pkgBasic "dependencies" := by
    show ∀ p ∈ [("react", Json.str "^17.0.0"), ("lodash", Json.str "^4.17.0")],
      isNonemptyStr p.2 = true
    decide
  have hw2 : DepsWf pkgBasic "devDependencies" := by
    show ∀ p ∈ [("react", Json.str "^16.0.0"), ("eslint", Json.str "^8.0.0")],
      isNonemptyStr p.2 = true
    decide
  have h := c10_runtime_deps_win pkgBasic [("react", ⟨"17.0.2", "18.2.0"⟩)]
    ">=18.0.0" "react" ⟨"17.0.2", "18.2.0"⟩ hw1 hw2
    (by decide) (by decide) (List.mem_singleton.mpr rfl) (by rfl) (by rfl)
  refine ⟨h.1, ?_, ?_⟩
  · rw [h.2.1]; rfl
  · rw [h.2.2 "name" (by decide) (by decide) (by decide)]; rfl

/-! ## Claim C3 -/

/-- C3: on a run with a non-empty well-formed outdated mapping, the only
file write of the whole run is the sibling `package-updated.json` — the
original `package.json` is never written — and the written value is the
manifest copy in which every outdated dependency present in the manifest
has its version replaced by the mapping's `latest` value (`dependencies`
first, else `devDependencies`), `engines.node` equals the computed
recommendation, and everything else is copied unchanged. -/
theorem c3_sibling_file (parse : String → Option Json) (root : List FSEntry)
    (exec : ExecOutcome) (meta : String → String → Option String)
    (hasKey : Bool) (apiResp : Except String String)
    (pkg odJson : Json) (od : List (String × OutdatedEntry)) (st : List String)
    (hpkg : readPackageJson parse root = Except.ok pkg)
    (hobj : ∃ fs, pkg = Json.obj fs)
    (hwf1 : DepsWf pkg "dependencies") (hwf2 : DepsWf pkg "devDependencies")
    (hout : getOutdatedPackages parse exec = Except.ok odJson)
    (hconv : readOutdated odJson = some od)
    (hne : od ≠ [])
    (hnodup : (od.map Prod.fst).Nodup)
    (hlat : ∀ p ∈ od, p.2.latest.isEmpty = false)
    (hdet : detectStacksFromFiles parse root = Except.ok st) :
    ∃ (out : RunOutput) (upd : Json),
      runAnalysis parse root exec meta hasKey apiResp = Except.ok out ∧
      upd = (createUpdatedPackageJson pkg od
        (getRecommendedNodeVersionFromPackages meta od)).1 ∧
      out.writes = [("package-updated.json", upd)] ∧
      "package.json" ∉ out.writes.map Prod.fst ∧
      getDep upd "engines" "node" =
        some (Json.str (getRecommendedNodeVersionFromPackages meta od)) ∧
      (∀ p ∈ od,
        ((getDep pkg "dependencies" p.1).isSome →
          getDep upd "dependencies" p.1 = some (Json.str p.2.latest)) ∧
        (getDep pkg "dependencies" p.1 = none →
          (getDep pkg "devDependencies" p.1).isSome →
          getDep upd "devDependencies" p.1 = some (Json.str p.2.latest))) ∧
      (∀ name, name ∉ od.map Prod.fst →
        getDep upd "dependencies" name = getDep pkg "dependencies" name ∧
        getDep upd "devDependencies" name = getDep pkg "devDependencies" name) ∧
      (∀ k, k ≠ "dependencies" → k ≠ "devDependencies" → k ≠ "engines" →
        upd.member k = pkg.member k) := by
  have hie : od.isEmpty = false := by
    cases od with
    | nil => exact absurd rfl hne
    | cons p t => rfl
  obtain ⟨-, hframe, hnames, hself⟩ := bumpFold_spec od pkg hwf1 hwf2 hnodup hlat
  have hfoldObj : ∃ gs, od.foldl bumpStep pkg = Json.obj gs := bumpFold_isObj od pkg hobj
  have hrun : ∃ out : RunOutput,
      runAnalysis parse root exec meta hasKey apiResp = Except.ok out ∧
      out.writes = (createUpdatedPackageJson pkg od
        (getRecommendedNodeVersionFromPackages meta od)).2 := by
    unfold runAnalysis
    rw [hpkg, hout, hdet]
    simp only [Bind.bind, Except.bind]
    rw [hconv]
    simp only [hie, Bool.false_eq_true, if_false]
    exact ⟨_, rfl, rfl⟩
  obtain ⟨out, hrun, hwr⟩ := hrun
  refine ⟨out,
    (createUpdatedPackageJson pkg od (getRecommendedNodeVersionFromPackages meta od)).1,
    hrun, rfl, by rw [hwr]; exact rfl, ?_, ?_, ?_, ?_, ?_⟩
  · rw [hwr]
    exact (by decide : "package.json" ∉ (["package-updated.json"] : List String))
  · exact getDep_setEngines_node _ _ hfoldObj
  · intro p hp
    have hres := hself p hp
    constructor
    · intro h1
      rw [if_pos h1] at hres
      rw [show (createUpdatedPackageJson pkg od
          (getRecommendedNodeVersionFromPackages meta od)).1 =
        setEngines (od.foldl bumpStep pkg)
          (getRecommendedNodeVersionFromPackages meta od) from rfl]
      rw [getDep_setEngines_ne _ _ (by decide)]
      exact hres.1
    · intro h1 h2
      rw [if_neg (by rw [h1]; exact Bool.false_ne_true ∘ id), if_pos h2] at hres
      rw [show (createUpdatedPackageJson pkg od
          (getRecommendedNodeVersionFromPackages meta od)).1 =
        setEngines (od.foldl bumpStep pkg)
          (getRecommendedNodeVersionFromPackages meta od) from rfl]
      rw [getDep_setEngines_ne _ _ (by decide)]
      exact hres.1
  · intro name hname
    rw [show (createUpdatedPackageJson pkg od
        (getRecommendedNodeVersionFromPackages meta od)).1 =
      setEngines (od.foldl bumpStep pkg)
        (getRecommendedNodeVersionFromPackages meta od) from rfl]
    rw [getDep_setEngines_ne _ _ (by decide), getDep_setEngines_ne _ _ (by decide)]
    exact ⟨hnames name hname "dependencies", hnames name hname "devDependencies"⟩
  · intro k hk1 hk2 hk3
    rw [show (createUpdatedPackageJson pkg od
        (getRecommendedNodeVersionFromPackages meta od)).1 =
      setEngines (od.foldl bumpStep pkg)
        (getRecommendedNodeVersionFromPackages meta od) from rfl]
    rw [member_setEngines_ne _ _ hk3]
    exact hframe k hk1 hk2

/-- C3 witness: a concrete run on the two-mapping manifest with `react`
outdated; the sibling file is written and the original manifest path is
untouched. -/
theorem c3_witness :
    ∃ (out : RunOutput) (upd : Json),
      runAnalysis demoParse rootBasic (ExecOutcome.success odReactText)
          (fun _ _ => none) false (Except.error "boom") = Except.ok out ∧
      upd = (createUpdatedPackageJson pkgBasic [("react", ⟨"17.0.2", "18.2.0"⟩)]
        ">=18.0.0").1 ∧
      out.writes = [("package-updated.json", upd)] ∧
      "package.json" ∉ out.writes.map Prod.fst := by
  have hw1 : DepsWf pkgBasic "dependencies" := by
    show ∀ p ∈ [("react", Json.str "^17.0.0"), ("lodash", Json.str "^4.17.0")],
      isNonemptyStr p.2 = true
    decide
  have hw2 : DepsWf pkgBasic "devDependencies" := by
    show ∀ p ∈ [("react", Json.str "^16.0.0"), ("eslint", Json.str "^8.0.0")],
      isNonemptyStr p.2 = true
    decide
  obtain ⟨out, upd, hrun, hupd, hwr, hnin, -⟩ :=
    c3_sibling_file demoParse rootBasic (ExecOutcome.success odReactText)
      (fun _ _ => none) false (Except.error "boom")
      pkgBasic odReact [("react", ⟨"17.0.2", "18.2.0"⟩)] []
      (by rfl) ⟨_, rfl⟩ hw1 hw2 (by rfl) (by rfl)
      (by decide) (by decide) (by decide) (by rfl)
  exact ⟨out, upd, hrun, hupd, hwr, hnin⟩

end ThemeAI
